import Mathlib

/-!
Shallow embedding of `libsast/core_matcher/choice_matcher.py` (class
`ChoiceMatcher`) and verification of the specification claims about it.

Modelling conventions:
* Python mutable state is passed explicitly; the per-rule scan loop becomes a
  structurally recursive function threading a `ScanSt` record.
* Python exceptions become `Except`: `.error` is a raised exception, `.ok` a
  normal return.  `scan` returning Python `None` is modelled by
  `Except.ok Option.none`.
* Machine strings and lists are Lean `String` / `List`; Python sets are
  `Finset`; Python `dict` (ordered, unique keys, assignment replaces in
  place) is an association list manipulated only through `dictSet`.
* External collaborators that are not part of the examined source file
  (`choices.find_choices`, `strip_comments`, `strip_comments2`, the
  `exceptions` module, the filesystem) are modelled from the spec, as
  explicit parameters or small inductive types; see their doc comments.
-/

set_option autoImplicit false

deriving instance DecidableEq for Except

namespace Libsast

/-- Modelled from the spec: the `libsast.exceptions` module is not in the
examined source; the spec (section 7) and the call sites in
`choice_matcher.py` name these exception classes: `InvalidRuleFormatError`,
`TypeKeyMissingError`, `PatternKeyMissingError`, `RuleProcessingError`.
`indexError` is Python's built-in `IndexError`, reachable from
`rule[choice][min(matches)]` in `add_finding`. -/
inductive PyErr where
  | invalidRuleFormat (msg : String)
  | typeKeyMissing (msg : String)
  | patternKeyMissing (msg : String)
  | ruleProcessing (msg : String)
  | indexError
deriving DecidableEq, Repr

/-- Exception class ("kind") of a raised `PyErr`, forgetting the message. -/
inductive ErrKind where
  | invalidRuleFormat
  | typeKeyMissing
  | patternKeyMissing
  | ruleProcessing
  | indexError
deriving DecidableEq, Repr

def PyErr.kind : PyErr → ErrKind
  | .invalidRuleFormat _ => .invalidRuleFormat
  | .typeKeyMissing _ => .typeKeyMissing
  | .patternKeyMissing _ => .patternKeyMissing
  | .ruleProcessing _ => .ruleProcessing
  | .indexError => .indexError

/-- Kind of the exception raised by a fallible computation, if any. -/
def errKindOf {α : Type} (r : Except PyErr α) : Option ErrKind :=
  match r with
  | .error e => some e.kind
  | .ok _ => none

/-- A rule record (a Python dict).  The five required keys plus `message`
are structured fields; Python truthiness of a string is "non-empty", and a
missing key behaves like a falsy value in every `rule.get` test the source
performs, so a missing/falsy field is modelled as `""` (resp. `[]`).
`elseV` models the optional `else` key (`""` = absent or falsy).  `extra`
holds all remaining key/value metadata pairs in dict order. -/
structure Rule where
  id : String
  type : String
  choice_type : String
  selection : String
  choice : List (List String × String)
  message : String
  elseV : String
  extra : List (String × String)
deriving DecidableEq, Repr

/-- An element of the caller-supplied rule list: either a dict (a structured
`Rule`) or some non-dict object, which `validate_rules` rejects. -/
inductive RawRule where
  | dict (r : Rule)
  | notDict
deriving DecidableEq, Repr

def RawRule.toRule? : RawRule → Option Rule
  | .dict r => some r
  | .notDict => none

/-- Modelled from the spec: a filesystem file as the scanner observes it.
`suffix` is the extension with its dot (`Path.suffix`), `size` the byte
count `stat` would report, `content` the text produced by
`read_text(utf-8, ignore)` (that decode never raises), and `ioError`,
when `some msg`, means the OS-level access (`stat`/`read_text`) raises an
exception carrying `msg`. -/
structure PyFile where
  suffix : String
  size : Nat
  content : String
  ioError : Option String
deriving DecidableEq, Repr

/-- Modelled from the spec: result of the external pattern matcher
`choices.find_choices` on one file.  The spec says it returns either a set
of matched tokens (`all` semantics), an ordered sequence of matched choice
indices (`or`/`and` semantics), or nothing on no match.  The source
branches on `isinstance(match, set)` / `isinstance(match, list)` after a
truthiness test, which is exactly the constructor analysis below. -/
inductive MatchRes where
  | null
  | tokSet (ts : Finset String)
  | idxList (l : List Nat)
deriving DecidableEq

/-- Modelled from the spec: the external collaborators imported by the
source but not part of it: the generic comment stripper, the HTML/XML
comment stripper, and the pattern matcher (which may itself raise, its
failure carrying an arbitrary message). -/
structure Externals where
  strip_comments : String → String
  strip_comments2 : String → String
  find_choices : String → Rule → Except String MatchRes

/-- Inner exceptions raised inside the per-rule scan loop, before the
catch-all converts them: OS errors from `stat`/`read_text` and failures of
the pattern matcher. -/
inductive InnerErr where
  | os (msg : String)
  | matcher (msg : String)
deriving DecidableEq, Repr

/-- Argument that `selection.format(...)` was applied to.  Python renders
`list(all_matches)` in interpreter-dependent (hash) order, so the argument
of the `all` branch is kept as the set itself; a label or the `else`
default is a plain string. -/
inductive FmtArg where
  | tokens (ts : Finset String)
  | label (s : String)
deriving DecidableEq

/-- Result of `rule[selection].format(arg)`: the template paired with the
formatted argument (see `FmtArg` for why this stays symbolic). -/
structure SelectionV where
  template : String
  arg : FmtArg
deriving DecidableEq

/-- Value stored in a finding record: the resolved selection under key
`choice`, plain strings everywhere else. -/
inductive MetaVal where
  | sel (v : SelectionV)
  | str (s : String)
deriving DecidableEq

/-- A finding record (`meta_dict` in the source): a Python dict. -/
abbrev Meta := List (String × MetaVal)

/-- The `self.findings` dict: rule id to finding record. -/
abbrev Findings := List (String × Meta)

/-- Python dict assignment `d[k] = v`: replace in place if the key exists,
otherwise append (Python dicts preserve insertion order). -/
def dictSet {α : Type} (d : List (String × α)) (k : String) (v : α) : List (String × α) :=
  match d with
  | [] => [(k, v)]
  | (k0, v0) :: rest => if k0 = k then (k, v) :: rest else (k0, v0) :: dictSet rest k v

/-- Python dict lookup `d.get(k)`. -/
def dictGet? {α : Type} (d : List (String × α)) (k : String) : Option α :=
  match d with
  | [] => none
  | (k0, v0) :: rest => if k0 = k then some v0 else dictGet? rest k

/-- Python `d.keys()`. -/
def dictKeys {α : Type} (d : List (String × α)) : List String :=
  d.map Prod.fst

/-- Python `str.lower()` as the source applies it to extensions: lowercase
every character (`String.toLower` does exactly this; restated on the
character list so that kernel evaluation can unfold it). -/
def strLower (s : String) : String :=
  ⟨s.data.map Char.toLower⟩

/-- Configuration extracted by `ChoiceMatcher.__init__` from the options
dict: the lowercased extension allow-list (`self.exts`, `[]` when the
option was missing or falsy) and the alternative path for non-`code` rules
(`None`/empty string modelled as `none`; the `Path` the source builds from
the configured string is modelled as the `PyFile` it would resolve to). -/
structure CMConf where
  exts : List String
  alternative_path : Option PyFile

/-- Caller-supplied options relevant to the scan result (`show_progress`
only drives UI and is dropped; `choice_rules` is passed to `scan` directly
since rule-file loading is external). -/
structure Options where
  choice_extensions : List String
  alternative_path : Option PyFile

/-- The extension handling of `ChoiceMatcher.__init__`:
`self.exts = [ext.lower() for ext in exts] if exts else []`. -/
def initCM (o : Options) : CMConf :=
  { exts := if o.choice_extensions = [] then [] else o.choice_extensions.map strLower,
    alternative_path := o.alternative_path }

/-- The `validate_rules` body for a single rule: non-dict rules raise
`InvalidRuleFormatError`; then each required key is tested for truthiness
in source order, raising `TypeKeyMissingError` for `id` and
`PatternKeyMissingError` for `type`, `choice_type`, `selection`, `choice`. -/
def validate_rule (r : RawRule) : Except PyErr Unit :=
  match r with
  | .notDict => .error (.invalidRuleFormat "Choice Matcher Rule format is invalid.")
  | .dict rule =>
    if rule.id = "" then
      .error (.typeKeyMissing "The rule is missing the key \x27id\x27")
    else if rule.type = "" then
      .error (.patternKeyMissing "The rule is missing the key \x27type\x27")
    else if rule.choice_type = "" then
      .error (.patternKeyMissing "The rule is missing the key \x27choice_type\x27")
    else if rule.selection = "" then
      .error (.patternKeyMissing "The rule is missing the key \x27selection\x27")
    else if rule.choice = [] then
      .error (.patternKeyMissing "The rule is missing the key \x27choice\x27")
    else
      .ok ()

/-- `ChoiceMatcher.validate_rules`: check every rule, stopping at the first
exception. -/
def validate_rules : List RawRule → Except PyErr Unit
  | [] => .ok ()
  | r :: rest =>
    match validate_rule r with
    | .error e => .error e
    | .ok _ => validate_rules rest

/-- Per-rule mutable scan state of `choice_matcher`: the two accumulator
sets plus the number of `results.append(...)` calls executed.  The appended
dicts alias the two mutable set objects, so after the loop every appended
record holds the final set contents; only the count distinguishes them. -/
structure ScanSt where
  matches_ : Finset Nat
  all_matches : Finset String
  nrec : Nat
deriving DecidableEq

/-- The `if match:` block of `choice_matcher`: a truthy set result is
unioned into `all_matches`, a truthy list result contributes its first
element to `matches`; either way (and also for a truthy value of any other
shape, which `MatchRes` does not have) one record is appended.  Falsy
results (`None`, empty set, empty list) leave everything unchanged. -/
def recordMatch (s : ScanSt) (m : MatchRes) : ScanSt :=
  match m with
  | .null => s
  | .tokSet ts => if ts = ∅ then s else ⟨s.matches_, s.all_matches ∪ ts, s.nrec + 1⟩
  | .idxList [] => s
  | .idxList (i :: _) => ⟨insert i s.matches_, s.all_matches, s.nrec + 1⟩

/-- Comment-stripping dispatch of `choice_matcher`: `.html`/`.xml` files
use `strip_comments2`, everything else `strip_comments`. -/
def normData (env : Externals) (ext : String) (content : String) : String :=
  if ext = ".html" ∨ ext = ".xml" then env.strip_comments2 content else env.strip_comments content

/-- The tail of the per-file loop body once the filters passed: normalize
the text, run `choices.find_choices`, fold the result into the state. -/
def matchPhase (env : Externals) (rule : Rule) (s : ScanSt) (f : PyFile) : Except InnerErr ScanSt :=
  match env.find_choices (normData env (strLower f.suffix) f.content) rule with
  | .error msg => .error (.matcher msg)
  | .ok m => .ok (recordMatch s m)

/-- One iteration of the `for sfile in scan_paths` loop of
`choice_matcher`, in source order: skip when the allow-list is non-empty
and the lowercased extension is not in it; then `stat` (raising on OS
error); skip when the size exceeds 5 MB (`st_size / 1000 / 1000 > 5`,
i.e. more than 5000000 bytes); otherwise read, normalize and match. -/
def stepF (env : Externals) (cm : CMConf) (rule : Rule) (s : ScanSt) (f : PyFile) : Except InnerErr ScanSt :=
  if cm.exts ≠ [] ∧ strLower f.suffix ∉ cm.exts then .ok s
  else
    match f.ioError with
    | some msg => .error (.os msg)
    | none =>
      if 5000000 < f.size then .ok s
      else matchPhase env rule s f

/-- The whole `for sfile in scan_paths` loop: thread the state through the
files, propagating the first inner exception. -/
def runFiles (env : Externals) (cm : CMConf) (rule : Rule) : List PyFile → ScanSt → Except InnerErr ScanSt
  | [], s => .ok s
  | f :: fs, s =>
    match stepF env cm rule s f with
    | .error e => .error e
    | .ok s1 => runFiles env cm rule fs s1

/-- One per-rule match record as `add_finding` receives it.  Because the
records appended by `choice_matcher` alias the two mutable sets, each holds
the final `matches` / `all_matches` contents. -/
structure MatchRecord where
  rule : Rule
  matches_ : Finset Nat
  all_matches : Finset String
deriving DecidableEq

/-- `ChoiceMatcher.choice_matcher`: run the file loop under the
`try`/`except Exception` that converts any exception into the constant
`RuleProcessingError(Rule processing error.)`; on success return the
appended records (all equal to the final state, see `MatchRecord`). -/
def choice_matcher (env : Externals) (cm : CMConf) (scan_paths : List PyFile) (rule : Rule) :
    Except PyErr (List MatchRecord) :=
  match runFiles env cm rule scan_paths ⟨∅, ∅, 0⟩ with
  | .error _ => .error (.ruleProcessing "Rule processing error.")
  | .ok st => .ok (List.replicate st.nrec ⟨rule, st.matches_, st.all_matches⟩)

/-- The keys `get_meta` refuses to copy from the rule into the finding. -/
def reservedKeys : List String :=
  ["choice", "message", "id", "type", "choice_type", "selection", "else"]

/-- `ChoiceMatcher.get_meta`: build the finding record: `choice` is the
resolved selection, `description` the rule message, then iterate the rule
keys (the structured fields are all reserved and skipped, so only `extra`
pairs remain) copying every non-reserved pair via dict assignment. -/
def get_meta (rule : Rule) (selection : SelectionV) : Meta :=
  let m := dictSet [] "choice" (.sel selection)
  let m := dictSet m "description" (.str rule.message)
  rule.extra.foldl (fun m kv => if kv.1 ∈ reservedKeys then m else dictSet m kv.1 (.str kv.2)) m

/-- Python `min` over a non-empty set of naturals (`min(matches)` in the
source); the default is never reached under the non-emptiness guard. -/
def setMinNat (s : Finset Nat) : Nat :=
  s.min.untop' 0

/-- The per-record body of the `add_finding` loop: the priority reduction.
`rule[choice][min(matches)]` is Python list indexing and raises
`IndexError` when the minimum is out of range. -/
def addFindingStep (fs : Findings) (mr : MatchRecord) : Except PyErr Findings :=
  if mr.all_matches ≠ ∅ then
    .ok (dictSet fs mr.rule.id (get_meta mr.rule ⟨mr.rule.selection, .tokens mr.all_matches⟩))
  else if mr.matches_ ≠ ∅ then
    match mr.rule.choice[setMinNat mr.matches_]? with
    | some c => .ok (dictSet fs mr.rule.id (get_meta mr.rule ⟨mr.rule.selection, .label c.2⟩))
    | none => .error .indexError
  else if mr.rule.elseV ≠ "" then
    .ok (dictSet fs mr.rule.id (get_meta mr.rule ⟨mr.rule.selection, .label mr.rule.elseV⟩))
  else
    .ok fs

/-- The inner `for match_dict in res_list` loop of `add_finding`. -/
def addFindingList : Findings → List MatchRecord → Except PyErr Findings
  | fs, [] => .ok fs
  | fs, mr :: rest =>
    match addFindingStep fs mr with
    | .error e => .error e
    | .ok fs1 => addFindingList fs1 rest

/-- `ChoiceMatcher.add_finding`: iterate the per-rule result lists,
skipping empty ones (`if not res_list: continue`). -/
def add_finding : Findings → List (List MatchRecord) → Except PyErr Findings
  | fs, [] => .ok fs
  | fs, res_list :: rest =>
    if res_list = [] then add_finding fs rest
    else
      match addFindingList fs res_list with
      | .error e => .error e
      | .ok fs1 => add_finding fs1 rest

/-- Scan-path override in `ChoiceMatcher.scan`: a rule whose `type` is not
`code` scans only the configured alternative path, when one is set. -/
def taskPaths (cm : CMConf) (paths : List PyFile) (rule : Rule) : List PyFile :=
  match cm.alternative_path with
  | some ap => if rule.type ≠ "code" then [ap] else paths
  | none => paths

/-- The worker-pool dispatch of `ChoiceMatcher.scan`
(`pool.starmap(self.choice_matcher, choice_args)`): results are collected
in task order and the first raised exception propagates (all worker
exceptions are the identical constant `RuleProcessingError`, so which one
the pool surfaces is unobservable). -/
def runTasks (env : Externals) (cm : CMConf) : List (List PyFile × Rule) → Except PyErr (List (List MatchRecord))
  | [] => .ok []
  | t :: ts =>
    match choice_matcher env cm t.1 t.2 with
    | .error e => .error e
    | .ok recs =>
      match runTasks env cm ts with
      | .error e => .error e
      | .ok rest => .ok (recs :: rest)

/-- `ChoiceMatcher.scan`: returns Python `None` (`Option.none`) when the
rule list or path list is falsy, validates the rules, builds one task per
rule (after successful validation every rule is a dict, so `filterMap
RawRule.toRule?` keeps them all), runs the pool, aggregates and returns
`self.findings` (initially empty). -/
def scan (env : Externals) (cm : CMConf) (scan_rules : List RawRule) (paths : List PyFile) :
    Except PyErr (Option Findings) :=
  if scan_rules = [] ∨ paths = [] then .ok none
  else
    match validate_rules scan_rules with
    | .error e => .error e
    | .ok _ =>
      let rules := scan_rules.filterMap RawRule.toRule?
      let choice_args := rules.map fun rule => (taskPaths cm paths rule, rule)
      match runTasks env cm choice_args with
      | .error e => .error e
      | .ok results =>
        match add_finding [] results with
        | .error e => .error e
        | .ok fs => .ok (some fs)

/-- Collapse of the worker-side `try`/`except` used when reasoning about
file-order permutations: only whether an inner exception occurred is
observable after the catch-all, not which. -/
def wrapErr (r : Except InnerErr ScanSt) : Except PyErr ScanSt :=
  match r with
  | .error _ => .error (.ruleProcessing "Rule processing error.")
  | .ok s => .ok s

/-- Identity text normalizer, used to instantiate the external comment
strippers in concrete test runs. -/
def idStrip : String → String := fun s => s

/-- Build a concrete `Externals` from a pattern-matcher function. -/
def envOf (m : String → Rule → Except String MatchRes) : Externals :=
  ⟨idStrip, idStrip, m⟩

/-- The end-to-end scenario rule of the spec (section 8). -/
def ruleSdk : Rule :=
  { id := "sdk", type := "code", choice_type := "or", selection := "sel",
    choice := [(["23"], "Marshmallow"), (["21"], "Lollipop")],
    message := "msg", elseV := "", extra := [] }

/-- A rule with six choices, for the smallest-index scenario on {3, 0, 5}. -/
def ruleSix : Rule :=
  { id := "six", type := "code", choice_type := "or", selection := "sel",
    choice := [(["t0"], "L0"), (["t1"], "L1"), (["t2"], "L2"),
               (["t3"], "L3"), (["t4"], "L4"), (["t5"], "L5")],
    message := "msg", elseV := "", extra := [] }

/-- The scenario rule with an `else` default. -/
def ruleElse : Rule :=
  { id := "sdk", type := "code", choice_type := "or", selection := "sel",
    choice := [(["23"], "Marshmallow"), (["21"], "Lollipop")],
    message := "msg", elseV := "Default", extra := [] }

/-- A rule carrying a pass-through metadata key literally named
`description`. -/
def ruleDesc : Rule :=
  { id := "rd", type := "code", choice_type := "all", selection := "sel",
    choice := [(["a"], "A")], message := "M", elseV := "",
    extra := [("description", "X"), ("severity", "warning")] }

/-- Pattern matcher recognizing the scenario tokens `21` and `23`. -/
def envSdk : Externals := envOf fun data _ =>
  if data = "21" then .ok (.idxList [1])
  else if data = "23" then .ok (.idxList [0])
  else .ok .null

/-- Pattern matcher that never matches. -/
def envNull : Externals := envOf fun _ _ => .ok .null

/-- Pattern matcher with `all` semantics matching the token `a`. -/
def envTok : Externals := envOf fun _ _ => .ok (.tokSet {"a"})

/-- Configuration with no extension filter and no alternative path. -/
def cm0 : CMConf := ⟨[], none⟩

/-- Options with a one-entry extension allow-list. -/
def optsJava : Options := ⟨[".java"], none⟩

/-- Options with an empty extension allow-list. -/
def optsNoExt : Options := ⟨[], none⟩

/-- A small scannable file whose text is the token `21`. -/
def fA : PyFile := ⟨".java", 10, "21", none⟩

/-- A small scannable file whose text is the token `23`. -/
def fB : PyFile := ⟨".java", 12, "23", none⟩

/-- A 6 MB file whose text is the guaranteed-match token `21`. -/
def fBig : PyFile := ⟨".java", 6000000, "21", none⟩

/-- A Kotlin file whose text is the token `21`. -/
def fKt : PyFile := ⟨".kt", 10, "21", none⟩

/-- A file whose stat/read raises an OS error. -/
def fErr : PyFile := ⟨".java", 10, "21", some "disk failure detail"⟩

/-- C3 counterexample: the claim asserts one field-distinct error kind per
missing required field, but a rule missing `type` and a rule missing
`selection` raise the same exception kind (`PatternKeyMissingError`), with
only the message differing. -/
theorem C3_kinds_not_field_distinct :
    errKindOf (validate_rule (.dict { ruleSdk with type := "" })) =
      some .patternKeyMissing ∧
    errKindOf (validate_rule (.dict { ruleSdk with selection := "" })) =
      some .patternKeyMissing ∧
    validate_rule (.dict { ruleSdk with type := "" }) ≠
      validate_rule (.dict { ruleSdk with selection := "" }) := by
  refine ⟨by decide, by decide, by decide⟩

/-- C3 (amended): validation runs before any scanning and fails fast: when
validation fails, `scan` raises that very error for every environment and
file population (so before any file I/O); a non-dict rule raises the
format-invalid kind; a missing `id` raises the type-key-missing kind; and a
missing `type`, `choice_type`, `selection` or `choice` raises the
pattern-key-missing kind with a field-specific message (a kind shared by
those four fields, not field-distinct); the first failing rule determines
the error. -/
theorem C3_validation_failfast :
    (∀ (env : Externals) (cm : CMConf) (rules : List RawRule) (paths : List PyFile)
      (e : PyErr), rules ≠ [] → paths ≠ [] → validate_rules rules = .error e →
      scan env cm rules paths = .error e) ∧
    (validate_rule .notDict =
      .error (.invalidRuleFormat "Choice Matcher Rule format is invalid.")) ∧
    (∀ r : Rule, r.id = "" → validate_rule (.dict r) =
      .error (.typeKeyMissing "The rule is missing the key \x27id\x27")) ∧
    (∀ r : Rule, r.id ≠ "" → r.type = "" → validate_rule (.dict r) =
      .error (.patternKeyMissing "The rule is missing the key \x27type\x27")) ∧
    (∀ r : Rule, r.id ≠ "" → r.type ≠ "" → r.choice_type = "" →
      validate_rule (.dict r) =
        .error (.patternKeyMissing "The rule is missing the key \x27choice_type\x27")) ∧
    (∀ r : Rule, r.id ≠ "" → r.type ≠ "" → r.choice_type ≠ "" → r.selection = "" →
      validate_rule (.dict r) =
        .error (.patternKeyMissing "The rule is missing the key \x27selection\x27")) ∧
    (∀ r : Rule, r.id ≠ "" → r.type ≠ "" → r.choice_type ≠ "" → r.selection ≠ "" →
      r.choice = [] → validate_rule (.dict r) =
        .error (.patternKeyMissing "The rule is missing the key \x27choice\x27")) ∧
    (∀ (r : RawRule) (rest : List RawRule) (e : PyErr), validate_rule r = .error e →
      validate_rules (r :: rest) = .error e) := by
  refine ⟨?_, rfl, ?_, ?_, ?_, ?_, ?_, ?_⟩
  · intro env cm rules paths e hr hp hv
    unfold scan
    rw [if_neg (by simp [hr, hp]), hv]
  · intro r h1
    simp [validate_rule, h1]
  · intro r h1 h2
    simp [validate_rule, h1, h2]
  · intro r h1 h2 h3
    simp [validate_rule, h1, h2, h3]
  · intro r h1 h2 h3 h4
    simp [validate_rule, h1, h2, h3, h4]
  · intro r h1 h2 h3 h4 h5
    simp [validate_rule, h1, h2, h3, h4, h5]
  · intro r rest e hv
    unfold validate_rules
    rw [hv]

/-- Witness for C3: a non-dict first rule aborts the whole scan with the
format error before touching any file, and a rule missing `choice_type`
raises the pattern-key-missing kind. -/
theorem C3_validation_failfast_witness :
    scan envSdk cm0 [RawRule.notDict, .dict ruleSdk] [fA] =
      .error (.invalidRuleFormat "Choice Matcher Rule format is invalid.") ∧
    validate_rule (.dict { ruleSdk with choice_type := "" }) =
      .error (.patternKeyMissing "The rule is missing the key \x27choice_type\x27") :=
  ⟨C3_validation_failfast.1 envSdk cm0 [RawRule.notDict, .dict ruleSdk] [fA]
      (.invalidRuleFormat "Choice Matcher Rule format is invalid.")
      (by decide) (by decide) (by decide),
    C3_validation_failfast.2.2.2.2.1 { ruleSdk with choice_type := "" }
      (by decide) (by decide) (by decide)⟩

/-- C5 counterexample: with a non-empty rule list but an empty path list
(and likewise an empty rule list), a successful `scan` returns Python
`None` rather than a mapping. -/
theorem C5_none_on_empty_inputs :
    scan envSdk cm0 [.dict ruleSdk] [] = .ok none ∧
    scan envSdk cm0 [] [fA] = .ok none := by
  refine ⟨by decide, by decide⟩

/-- C5 (amended): when both the rule list and the path list are non-empty,
every successful `scan` returns a mapping (absence of a key then meaning no
finding); when either is empty, `scan` returns `None` instead of a
mapping. -/
theorem C5_scan_result_shape :
    (∀ (env : Externals) (cm : CMConf) (rules : List RawRule) (paths : List PyFile)
      (res : Option Findings), rules ≠ [] → paths ≠ [] →
      scan env cm rules paths = .ok res → ∃ fs, res = some fs) ∧
    (∀ (env : Externals) (cm : CMConf) (rules : List RawRule) (paths : List PyFile),
      rules = [] ∨ paths = [] → scan env cm rules paths = .ok none) := by
  constructor
  · intro env cm rules paths res hr hp h
    unfold scan at h
    rw [if_neg (by simp [hr, hp])] at h
    split at h
    · exact Except.noConfusion h
    · dsimp only at h
      split at h
      · exact Except.noConfusion h
      · split at h
        · exact Except.noConfusion h
        · cases h
          exact ⟨_, rfl⟩
  · intro env cm rules paths h
    unfold scan
    rw [if_pos h]

/-- C4: the `else` default is unreachable dead code.  `choice_matcher`
appends a record only for files with a truthy match, so a rule none of
whose files match produces no records at all; `add_finding` skips empty
record lists and the rule is absent from the findings, although the
aggregator's own `else` branch (second conjunct, exercised on the empty
record the worker never emits) would produce the default finding, which is
what the spec prescribes. -/
theorem C4_else_default_unreachable :
    scan envNull cm0 [.dict ruleElse] [fA] = .ok (some []) ∧
    addFindingStep [] ⟨ruleElse, ∅, ∅⟩ = .ok [(ruleElse.id,
      get_meta ruleElse ⟨ruleElse.selection, .label ruleElse.elseV⟩)] := by
  refine ⟨by decide, by decide⟩

/-- Files on which the loop body is the identity can be dropped from the
scan list without changing the worker's behavior. -/
theorem runFiles_skip_filter (env : Externals) (cm : CMConf) (rule : Rule)
    (p : PyFile → Bool)
    (hid : ∀ f, p f = false → ∀ s, stepF env cm rule s f = .ok s) :
    ∀ (paths : List PyFile) (s : ScanSt),
      runFiles env cm rule paths s = runFiles env cm rule (paths.filter p) s := by
  intro paths
  induction paths with
  | nil => intro s; rfl
  | cons x t ih =>
    intro s
    by_cases hx : p x = true
    · rw [List.filter_cons_of_pos hx]
      simp only [runFiles]
      cases hs : stepF env cm rule s x with
      | error e => rfl
      | ok s1 => exact ih s1
    · have hx0 : p x = false := by simpa using hx
      rw [List.filter_cons_of_neg (by simp [hx0])]
      simp only [runFiles]
      rw [hid x hx0 s]
      exact ih s

/-- Lifting of `runFiles_skip_filter` to the whole worker. -/
theorem choice_matcher_skip_filter (env : Externals) (cm : CMConf) (rule : Rule)
    (p : PyFile → Bool)
    (hid : ∀ f, p f = false → ∀ s, stepF env cm rule s f = .ok s)
    (paths : List PyFile) :
    choice_matcher env cm paths rule = choice_matcher env cm (paths.filter p) rule := by
  unfold choice_matcher
  rw [runFiles_skip_filter env cm rule p hid paths ⟨∅, ∅, 0⟩]

/-- A stat-able file larger than 5 MB leaves the loop state unchanged. -/
theorem stepF_skip_big (env : Externals) (cm : CMConf) (rule : Rule) (s : ScanSt)
    (f : PyFile) (hio : f.ioError = none) (hsz : 5000000 < f.size) :
    stepF env cm rule s f = .ok s := by
  unfold stepF
  by_cases h1 : cm.exts ≠ [] ∧ strLower f.suffix ∉ cm.exts
  · rw [if_pos h1]
  · rw [if_neg h1, hio]
    exact if_pos hsz

/-- A file whose lowercased extension falls outside a non-empty allow-list
leaves the loop state unchanged. -/
theorem stepF_skip_ext (env : Externals) (cm : CMConf) (rule : Rule) (s : ScanSt)
    (f : PyFile) (h : cm.exts ≠ [] ∧ strLower f.suffix ∉ cm.exts) :
    stepF env cm rule s f = .ok s := by
  unfold stepF
  rw [if_pos h]

/-- C6: files over 5 MB are skipped: dropping every stat-able file larger
than 5 MB from the scan list never changes the worker's output (so such a
file is never passed to the pattern matcher and contributes no tokens), and
the loop body on such a file returns the state unchanged with no error. -/
theorem C6_large_files_skipped :
    (∀ (env : Externals) (cm : CMConf) (rule : Rule) (paths : List PyFile),
      choice_matcher env cm paths rule =
      choice_matcher env cm (paths.filter fun f =>
        !(decide (f.ioError = none ∧ 5000000 < f.size))) rule) ∧
    (∀ (env : Externals) (cm : CMConf) (rule : Rule) (s : ScanSt) (f : PyFile),
      f.ioError = none → 5000000 < f.size → stepF env cm rule s f = .ok s) := by
  constructor
  · intro env cm rule paths
    apply choice_matcher_skip_filter
    intro f hpf s
    have hc : f.ioError = none ∧ 5000000 < f.size := by simpa using hpf
    exact stepF_skip_big env cm rule s f hc.1 hc.2
  · intro env cm rule s f hio hsz
    exact stepF_skip_big env cm rule s f hio hsz

/-- Witness for C6: a 6 MB file whose content would match is ignored
without error. -/
theorem C6_large_files_skipped_witness :
    stepF envSdk cm0 ruleSdk ⟨∅, ∅, 0⟩ fBig = .ok ⟨∅, ∅, 0⟩ :=
  C6_large_files_skipped.2 envSdk cm0 ruleSdk ⟨∅, ∅, 0⟩ fBig rfl (by decide)

/-- C7: with a non-empty allow-list, dropping every file whose lowercased
extension is not in the (case-insensitively compared) list never changes
the worker's output, so such files contribute nothing; with an empty
allow-list there is no extension filtering: every stat-able, small-enough
file reaches the normalize-and-match phase whatever its extension. -/
theorem C7_extension_allowlist :
    (∀ (env : Externals) (o : Options) (rule : Rule) (paths : List PyFile),
      o.choice_extensions ≠ [] →
      choice_matcher env (initCM o) paths rule =
      choice_matcher env (initCM o) (paths.filter fun f =>
        decide (strLower f.suffix ∈ o.choice_extensions.map strLower)) rule) ∧
    (∀ (env : Externals) (o : Options) (rule : Rule) (s : ScanSt) (f : PyFile),
      o.choice_extensions = [] → f.ioError = none → ¬ 5000000 < f.size →
      stepF env (initCM o) rule s f = matchPhase env rule s f) := by
  constructor
  · intro env o rule paths hne
    apply choice_matcher_skip_filter
    intro f hpf s
    have hexts : (initCM o).exts = o.choice_extensions.map strLower := by
      simp [initCM, hne]
    refine stepF_skip_ext env (initCM o) rule s f ⟨?_, ?_⟩
    · rw [hexts]
      simp [hne]
    · rw [hexts]
      simpa using hpf
  · intro env o rule s f hempty hio hsz
    have hexts : (initCM o).exts = [] := by simp [initCM, hempty]
    unfold stepF
    rw [if_neg (fun hc => hc.1 hexts), hio]
    exact if_neg hsz

/-- Witness for C7: with allow-list `[".java"]` the `.kt` file is dropped
from the scanned population, and with an empty allow-list the `.kt` file
reaches the matcher. -/
theorem C7_extension_allowlist_witness :
    choice_matcher envSdk (initCM optsJava) [fA, fKt] ruleSdk =
      choice_matcher envSdk (initCM optsJava) ([fA, fKt].filter fun f =>
        decide (strLower f.suffix ∈ optsJava.choice_extensions.map strLower)) ruleSdk ∧
    stepF envSdk (initCM optsNoExt) ruleSdk ⟨∅, ∅, 0⟩ fKt =
      matchPhase envSdk ruleSdk ⟨∅, ∅, 0⟩ fKt :=
  ⟨C7_extension_allowlist.1 envSdk optsJava ruleSdk [fA, fKt] (by decide),
    C7_extension_allowlist.2 envSdk optsNoExt ruleSdk ⟨∅, ∅, 0⟩ fKt rfl rfl (by decide)⟩

/-- C10: whenever the per-rule file loop raises any inner exception, the
worker re-raises exactly the constant generic
`RuleProcessingError(Rule processing error.)`, and every error the worker
can raise is that constant, so the original exception detail never reaches
the caller. -/
theorem C10_catchall_generic_error :
    (∀ (env : Externals) (cm : CMConf) (paths : List PyFile) (rule : Rule)
      (e : InnerErr), runFiles env cm rule paths ⟨∅, ∅, 0⟩ = .error e →
      choice_matcher env cm paths rule =
        .error (.ruleProcessing "Rule processing error.")) ∧
    (∀ (env : Externals) (cm : CMConf) (paths : List PyFile) (rule : Rule)
      (e : PyErr), choice_matcher env cm paths rule = .error e →
      e = .ruleProcessing "Rule processing error.") := by
  constructor
  · intro env cm paths rule e h
    unfold choice_matcher
    rw [h]
  · intro env cm paths rule e h
    unfold choice_matcher at h
    split at h
    · exact (Except.error.injEq _ _).mp h.symm
    · exact Except.noConfusion h

/-- Witness for C10: a file whose read raises an OS error with a detailed
message makes the worker raise the generic constant error, the detail
gone. -/
theorem C10_catchall_generic_error_witness :
    choice_matcher envSdk cm0 [fErr] ruleSdk =
      .error (.ruleProcessing "Rule processing error.") :=
  C10_catchall_generic_error.1 envSdk cm0 [fErr] ruleSdk
    (.os "disk failure detail") (by decide)

/-- Witness for C5: a concrete two-file scan succeeds with a mapping, and a
scan with an empty rule list returns `None`. -/
theorem C5_scan_result_shape_witness :
    (∃ fs, (some [("sdk", get_meta ruleSdk ⟨"sel", .label "Marshmallow"⟩)] :
      Option Findings) = some fs) ∧
    scan envSdk cm0 [] [fA] = .ok none :=
  ⟨C5_scan_result_shape.1 envSdk cm0 [.dict ruleSdk] [fA, fB]
      (some [("sdk", get_meta ruleSdk ⟨"sel", .label "Marshmallow"⟩)])
      (by decide) (by decide) (by decide),
    C5_scan_result_shape.2 envSdk cm0 [] [fA] (Or.inl rfl)⟩

/-- Looking up the key just assigned returns the assigned value. -/
theorem dictGet?_dictSet_self {α : Type} (d : List (String × α)) (k : String) (v : α) :
    dictGet? (dictSet d k v) k = some v := by
  induction d with
  | nil => simp [dictSet, dictGet?]
  | cons kv rest ih =>
    by_cases hk : kv.1 = k
    · simp [dictSet, dictGet?, hk]
    · simp [dictSet, dictGet?, hk, ih]

/-- Assigning one key does not affect lookups of other keys. -/
theorem dictGet?_dictSet_ne {α : Type} (d : List (String × α)) (k k' : String) (v : α)
    (h : k' ≠ k) : dictGet? (dictSet d k v) k' = dictGet? d k' := by
  induction d with
  | nil => simp only [dictSet, dictGet?, if_neg (fun he : k = k' => h he.symm)]
  | cons kv rest ih =>
    obtain ⟨k0, v0⟩ := kv
    by_cases hk : k0 = k
    · simp only [dictSet, if_pos hk, dictGet?]
      rw [if_neg (fun he : k = k' => h he.symm), if_neg (by
        rw [hk]
        exact fun he : k = k' => h he.symm)]
    · simp only [dictSet, if_neg hk, dictGet?]
      by_cases hk' : k0 = k'
      · rw [if_pos hk', if_pos hk']
      · rw [if_neg hk', if_neg hk']
        exact ih

/-- The pass-through fold of `get_meta` never touches a reserved key. -/
theorem metaFold_get_reserved (l : List (String × String)) (k : String)
    (hk : k ∈ reservedKeys) :
    ∀ m : Meta, dictGet? (l.foldl (fun m kv =>
      if kv.1 ∈ reservedKeys then m else dictSet m kv.1 (.str kv.2)) m) k =
      dictGet? m k := by
  induction l with
  | nil => intro m; rfl
  | cons kv t ih =>
    obtain ⟨k0, v0⟩ := kv
    intro m
    simp only [List.foldl_cons]
    by_cases hr : k0 ∈ reservedKeys
    · rw [if_pos hr]
      exact ih m
    · rw [if_neg hr, ih]
      exact dictGet?_dictSet_ne m k0 k (.str v0) (fun he => hr (he ▸ hk))

/-- The pass-through fold of `get_meta` does not touch keys outside the
iterated pair list. -/
theorem metaFold_get_notmem (l : List (String × String)) (k : String)
    (hk : k ∉ l.map Prod.fst) :
    ∀ m : Meta, dictGet? (l.foldl (fun m kv =>
      if kv.1 ∈ reservedKeys then m else dictSet m kv.1 (.str kv.2)) m) k =
      dictGet? m k := by
  induction l with
  | nil => intro m; rfl
  | cons kv t ih =>
    obtain ⟨k0, v0⟩ := kv
    have hne : k0 ≠ k := fun he => hk (by simp [he])
    have htl : k ∉ t.map Prod.fst := fun hm => hk (by simp [hm])
    intro m
    simp only [List.foldl_cons]
    by_cases hr : k0 ∈ reservedKeys
    · rw [if_pos hr]
      exact ih htl m
    · rw [if_neg hr, ih htl]
      exact dictGet?_dictSet_ne m k0 k (.str v0) (fun he => hne he.symm)

/-- Under unique keys, the pass-through fold of `get_meta` stores every
non-reserved pair of the iterated list. -/
theorem metaFold_get_mem (l : List (String × String)) (k : String) (v : String)
    (hnd : (l.map Prod.fst).Nodup) (hmem : (k, v) ∈ l) (hk : k ∉ reservedKeys) :
    ∀ m : Meta, dictGet? (l.foldl (fun m kv =>
      if kv.1 ∈ reservedKeys then m else dictSet m kv.1 (.str kv.2)) m) k =
      some (.str v) := by
  induction l with
  | nil => cases hmem
  | cons kv t ih =>
    obtain ⟨k0, v0⟩ := kv
    intro m
    have hnd' : (t.map Prod.fst).Nodup := (List.nodup_cons.mp (by simpa using hnd)).2
    have hhd : k0 ∉ t.map Prod.fst := (List.nodup_cons.mp (by simpa using hnd)).1
    simp only [List.foldl_cons]
    rcases List.mem_cons.mp hmem with heq | hmem'
    · cases heq
      rw [if_neg hk]
      rw [metaFold_get_notmem t k hhd]
      exact dictGet?_dictSet_self m k (.str v)
    · have hne : k0 ≠ k := fun he =>
        hhd (he ▸ List.mem_map.mpr ⟨(k, v), hmem', rfl⟩)
      by_cases hr : k0 ∈ reservedKeys
      · rw [if_pos hr]
        exact ih hnd' hmem' m
      · rw [if_neg hr]
        exact ih hnd' hmem' (dictSet m k0 (.str v0))

/-- C8 counterexample: a rule with a pass-through metadata key literally
named `description` produces a finding whose `description` is the metadata
value, not the rule message: the claim that `description` holds the message
verbatim while every non-reserved pair is copied through cannot both hold. -/
theorem C8_description_clobbered :
    scan envTok cm0 [.dict ruleDesc] [fA] = .ok (some [(ruleDesc.id,
      get_meta ruleDesc ⟨ruleDesc.selection, .tokens (∅ ∪ {"a"})⟩)]) ∧
    dictGet? (get_meta ruleDesc ⟨ruleDesc.selection, .tokens (∅ ∪ {"a"})⟩)
      "description" = some (.str "X") ∧
    ruleDesc.message = "M" ∧
    dictGet? (get_meta ruleDesc ⟨ruleDesc.selection, .tokens (∅ ∪ {"a"})⟩)
      "description" ≠ some (.str ruleDesc.message) := by
  refine ⟨by decide, by decide, rfl, by decide⟩

/-- C8 (amended): every finding record holds `choice` as the resolved
selection; `description` is the rule message whenever no pass-through key
is itself named `description` (such a key overwrites it, last write wins);
under unique rule keys every non-reserved metadata pair is copied through
unchanged; and no other key appears in the record. -/
theorem C8_finding_record_fields (rule : Rule) (sel : SelectionV) :
    (dictGet? (get_meta rule sel) "choice" = some (.sel sel)) ∧
    ("description" ∉ rule.extra.map Prod.fst →
      dictGet? (get_meta rule sel) "description" = some (.str rule.message)) ∧
    ((rule.extra.map Prod.fst).Nodup → ∀ k v, (k, v) ∈ rule.extra →
      k ∉ reservedKeys → dictGet? (get_meta rule sel) k = some (.str v)) ∧
    (∀ k, k ≠ "choice" → k ≠ "description" → k ∉ rule.extra.map Prod.fst →
      dictGet? (get_meta rule sel) k = none) := by
  simp only [get_meta]
  refine ⟨?_, ?_, ?_, ?_⟩
  · rw [metaFold_get_reserved rule.extra "choice" (by decide)]
    simp [dictSet, dictGet?]
  · intro hnm
    rw [metaFold_get_notmem rule.extra "description" hnm]
    simp [dictSet, dictGet?]
  · intro hnd k v hmem hk
    exact metaFold_get_mem rule.extra k v hnd hmem hk _
  · intro k hc hd hnm
    rw [metaFold_get_notmem rule.extra k hnm]
    simp only [dictSet, dictGet?]
    rw [if_neg (fun he => hc he.symm), if_neg (fun he => hd he.symm)]

/-- Witness for C8: concrete lookups in concrete finding records. -/
theorem C8_finding_record_fields_witness :
    dictGet? (get_meta ruleDesc ⟨"sel", .label "x"⟩) "choice" =
      some (.sel ⟨"sel", .label "x"⟩) ∧
    dictGet? (get_meta ruleSdk ⟨"sel", .label "x"⟩) "description" =
      some (.str ruleSdk.message) ∧
    dictGet? (get_meta ruleDesc ⟨"sel", .label "x"⟩) "severity" =
      some (.str "warning") ∧
    dictGet? (get_meta ruleDesc ⟨"sel", .label "x"⟩) "zzz" = none :=
  ⟨(C8_finding_record_fields ruleDesc ⟨"sel", .label "x"⟩).1,
    (C8_finding_record_fields ruleSdk ⟨"sel", .label "x"⟩).2.1 (by decide),
    (C8_finding_record_fields ruleDesc ⟨"sel", .label "x"⟩).2.2.1 (by decide)
      "severity" "warning" (by decide) (by decide),
    (C8_finding_record_fields ruleDesc ⟨"sel", .label "x"⟩).2.2.2 "zzz"
      (by decide) (by decide) (by decide)⟩

/-- Keys after a dict assignment: the assigned key or an existing key. -/
theorem dictKeys_dictSet {α : Type} (d : List (String × α)) (k k' : String) (v : α)
    (h : k' ∈ dictKeys (dictSet d k v)) : k' = k ∨ k' ∈ dictKeys d := by
  induction d with
  | nil => simpa [dictSet, dictKeys] using h
  | cons kv rest ih =>
    obtain ⟨k0, v0⟩ := kv
    by_cases hk : k0 = k
    · rw [dictSet, if_pos hk] at h
      rcases by simpa [dictKeys] using h with h1 | h1
      · exact Or.inl h1
      · exact Or.inr (by simp [dictKeys, h1])
    · rw [dictSet, if_neg hk] at h
      rcases by simpa [dictKeys] using h with h1 | h1
      · exact Or.inr (by simp [dictKeys, h1])
      · rcases ih (by simpa [dictKeys] using h1) with h2 | h2
        · exact Or.inl h2
        · exact Or.inr (by simp [dictKeys] at h2 ⊢; exact Or.inr h2)

/-- A successful aggregator step adds at most the record's rule id. -/
theorem addFindingStep_keys (fs : Findings) (mr : MatchRecord) (fs1 : Findings)
    (h : addFindingStep fs mr = .ok fs1) :
    ∀ k ∈ dictKeys fs1, k = mr.rule.id ∨ k ∈ dictKeys fs := by
  unfold addFindingStep at h
  split at h
  · cases h
    intro k hk
    exact dictKeys_dictSet fs mr.rule.id k _ hk
  · split at h
    · split at h
      · cases h
        intro k hk
        exact dictKeys_dictSet fs mr.rule.id k _ hk
      · exact Except.noConfusion h
    · split at h
      · cases h
        intro k hk
        exact dictKeys_dictSet fs mr.rule.id k _ hk
      · cases h
        intro k hk
        exact Or.inr hk

/-- A successful per-rule aggregation adds only ids of its records. -/
theorem addFindingList_keys :
    ∀ (recs : List MatchRecord) (fs fs1 : Findings),
      addFindingList fs recs = .ok fs1 →
      ∀ k ∈ dictKeys fs1, (∃ mr ∈ recs, mr.rule.id = k) ∨ k ∈ dictKeys fs := by
  intro recs
  induction recs with
  | nil =>
    intro fs fs1 h k hk
    cases h
    exact Or.inr hk
  | cons mr t ih =>
    intro fs fs1 h k hk
    unfold addFindingList at h
    cases hstep : addFindingStep fs mr with
    | error e => rw [hstep] at h; exact Except.noConfusion h
    | ok fs2 =>
      rw [hstep] at h
      rcases ih fs2 fs1 h k hk with ⟨mr1, hm1, hid1⟩ | hin
      · exact Or.inl ⟨mr1, List.mem_cons_of_mem mr hm1, hid1⟩
      · rcases addFindingStep_keys fs mr fs2 hstep k hin with h2 | h2
        · exact Or.inl ⟨mr, List.mem_cons_self mr t, h2.symm⟩
        · exact Or.inr h2

/-- A successful aggregation pass adds only ids found in its record lists. -/
theorem add_finding_keys :
    ∀ (results : List (List MatchRecord)) (fs fs1 : Findings),
      add_finding fs results = .ok fs1 →
      ∀ k ∈ dictKeys fs1,
        (∃ recs ∈ results, ∃ mr ∈ recs, mr.rule.id = k) ∨ k ∈ dictKeys fs := by
  intro results
  induction results with
  | nil =>
    intro fs fs1 h k hk
    cases h
    exact Or.inr hk
  | cons res t ih =>
    intro fs fs1 h k hk
    unfold add_finding at h
    by_cases hres : res = []
    · rw [if_pos hres] at h
      rcases ih fs fs1 h k hk with ⟨recs, hr, hmr⟩ | hin
      · exact Or.inl ⟨recs, List.mem_cons_of_mem res hr, hmr⟩
      · exact Or.inr hin
    · rw [if_neg hres] at h
      cases hlist : addFindingList fs res with
      | error e => rw [hlist] at h; exact Except.noConfusion h
      | ok fs2 =>
        rw [hlist] at h
        rcases ih fs2 fs1 h k hk with ⟨recs, hr, hmr⟩ | hin
        · exact Or.inl ⟨recs, List.mem_cons_of_mem res hr, hmr⟩
        · rcases addFindingList_keys res fs fs2 hlist k hin with ⟨mr, hm, hid⟩ | h2
          · exact Or.inl ⟨res, List.mem_cons_self res t, mr, hm, hid⟩
          · exact Or.inr h2

/-- Every record list a successful pool run returns comes from one task. -/
theorem runTasks_ok_mem (env : Externals) (cm : CMConf) :
    ∀ (ts : List (List PyFile × Rule)) (results : List (List MatchRecord)),
      runTasks env cm ts = .ok results →
      ∀ recs ∈ results, ∃ t ∈ ts, choice_matcher env cm t.1 t.2 = .ok recs := by
  intro ts
  induction ts with
  | nil =>
    intro results h recs hr
    cases h
    cases hr
  | cons t ts ih =>
    intro results h recs hr
    unfold runTasks at h
    cases hcm : choice_matcher env cm t.1 t.2 with
    | error e => rw [hcm] at h; exact Except.noConfusion h
    | ok recs0 =>
      rw [hcm] at h
      cases hrest : runTasks env cm ts with
      | error e => rw [hrest] at h; exact Except.noConfusion h
      | ok rest =>
        rw [hrest] at h
        cases h
        rcases List.mem_cons.mp hr with h1 | h1
        · exact ⟨t, List.mem_cons_self t ts, h1 ▸ hcm⟩
        · obtain ⟨t1, ht1, hcm1⟩ := ih rest hrest recs h1
          exact ⟨t1, List.mem_cons_of_mem t ht1, hcm1⟩

/-- Every record a successful worker run returns carries the task's rule. -/
theorem choice_matcher_records (env : Externals) (cm : CMConf) (paths : List PyFile)
    (rule : Rule) (recs : List MatchRecord)
    (h : choice_matcher env cm paths rule = .ok recs) :
    ∀ mr ∈ recs, mr.rule = rule := by
  unfold choice_matcher at h
  split at h
  · exact Except.noConfusion h
  · cases h
    intro mr hmr
    rw [List.eq_of_mem_replicate hmr]

/-- C9: every key of a returned findings mapping is the id of some rule of
the input rule set: no spurious keys. -/
theorem C9_no_spurious_keys (env : Externals) (cm : CMConf)
    (scan_rules : List RawRule) (paths : List PyFile) (fs : Findings)
    (h : scan env cm scan_rules paths = .ok (some fs)) :
    ∀ k ∈ dictKeys fs, ∃ r : Rule, RawRule.dict r ∈ scan_rules ∧ r.id = k := by
  intro k hk
  unfold scan at h
  by_cases hc : scan_rules = [] ∨ paths = []
  · rw [if_pos hc] at h
    injection h with h1
    exact Option.noConfusion h1
  · rw [if_neg hc] at h
    cases hv : validate_rules scan_rules with
    | error e => rw [hv] at h; exact Except.noConfusion h
    | ok u =>
      rw [hv] at h
      dsimp only at h
      cases ht : runTasks env cm ((scan_rules.filterMap RawRule.toRule?).map
          fun rule => (taskPaths cm paths rule, rule)) with
      | error e => rw [ht] at h; exact Except.noConfusion h
      | ok results =>
        rw [ht] at h
        dsimp only at h
        cases ha : add_finding [] results with
        | error e => rw [ha] at h; exact Except.noConfusion h
        | ok fs0 =>
          rw [ha] at h
          injection h with h1
          injection h1 with h2
          subst h2
          rcases add_finding_keys results [] fs0 ha k hk with ⟨recs, hrecs, mr, hmr, hid⟩ | hbad
          · obtain ⟨t, htm, hcm⟩ := runTasks_ok_mem env cm _ results ht recs hrecs
            have hrule := choice_matcher_records env cm t.1 t.2 recs hcm mr hmr
            obtain ⟨rule, hrm, hteq⟩ := List.mem_map.mp htm
            obtain ⟨rr, hrr, hto⟩ := List.mem_filterMap.mp hrm
            cases rr with
            | notDict => exact Option.noConfusion hto
            | dict r0 =>
              refine ⟨r0, hrr, ?_⟩
              have : r0 = rule := by
                simpa [RawRule.toRule?] using hto
              rw [this, ← hid, hrule, ← hteq]
          · simp [dictKeys] at hbad

/-- Witness for C9: the key of a concrete successful scan is traced back to
the input rule. -/
theorem C9_no_spurious_keys_witness :
    ∃ r : Rule, RawRule.dict r ∈ [RawRule.dict ruleSdk] ∧ r.id = "sdk" :=
  C9_no_spurious_keys envSdk cm0 [RawRule.dict ruleSdk] [fA, fB]
    [("sdk", get_meta ruleSdk ⟨"sel", .label "Marshmallow"⟩)]
    (by decide) "sdk" (by decide)

end Libsast

namespace Libsast

/-- List indexing succeeds below the length, returning the `getD` value. -/
theorem listGetElem?_eq_getD {α : Type} (d : α) :
    ∀ (l : List α) (i : Nat), i < l.length → l[i]? = some (l.getD i d)
  | _ :: _, 0, _ => by simp
  | _ :: l, i + 1, h => by
    simpa using listGetElem?_eq_getD d l i (Nat.lt_of_succ_lt_succ h)
  | [], _, h => by simp at h

/-- On a non-empty set `setMinNat` agrees with `Finset.min'`. -/
theorem setMinNat_eq_min' (s : Finset Nat) (h : s.Nonempty) : setMinNat s = s.min' h := by
  unfold setMinNat
  rw [← Finset.coe_min' h]
  rfl

/-- The Python `min` of a non-empty set is an element of it. -/
theorem setMinNat_mem (s : Finset Nat) (h : s.Nonempty) : setMinNat s ∈ s := by
  rw [setMinNat_eq_min' s h]
  exact s.min'_mem h

/-- The Python `min` of a non-empty set is a lower bound. -/
theorem setMinNat_le (s : Finset Nat) (h : s.Nonempty) {i : Nat} (hi : i ∈ s) :
    setMinNat s ≤ i := by
  rw [setMinNat_eq_min' s h]
  exact s.min'_le i hi

/-- Branch 2 of the `add_finding` reduction, shared form: with `all_matches`
empty and a non-empty in-range `matches` set, the finding uses the label at
the smallest matched index. -/
theorem addFindingStep_matchesEq (fs : Findings) (mr : MatchRecord)
    (h1 : mr.all_matches = ∅) (h2 : mr.matches_ ≠ ∅)
    (hlt : setMinNat mr.matches_ < mr.rule.choice.length) :
    addFindingStep fs mr = .ok (dictSet fs mr.rule.id
      (get_meta mr.rule ⟨mr.rule.selection,
        .label (mr.rule.choice.getD (setMinNat mr.matches_) ([], "")).2⟩)) := by
  unfold addFindingStep
  rw [if_neg (fun hc => hc h1), if_pos h2, listGetElem?_eq_getD ([], "") _ _ hlt]

/-- C1: for every per-rule match record handed to the aggregator, the
reduction follows the strict priority order of `add_finding`: a non-empty
`all_matches` formats the selection with the full token set; otherwise a
non-empty `matches` (whose indices are in range of the choice list, as the
pattern matcher guarantees) formats it with the label at the smallest
matched index; otherwise a declared `else` default formats it with that
default; otherwise the rule contributes no entry to the findings at all. -/
theorem C1_aggregator_priority (fs : Findings) (mr : MatchRecord) :
    (mr.all_matches ≠ ∅ →
      addFindingStep fs mr = .ok (dictSet fs mr.rule.id
        (get_meta mr.rule ⟨mr.rule.selection, .tokens mr.all_matches⟩))) ∧
    (mr.all_matches = ∅ → mr.matches_ ≠ ∅ →
      (∀ i ∈ mr.matches_, i < mr.rule.choice.length) →
      addFindingStep fs mr = .ok (dictSet fs mr.rule.id
        (get_meta mr.rule ⟨mr.rule.selection,
          .label (mr.rule.choice.getD (setMinNat mr.matches_) ([], "")).2⟩))) ∧
    (mr.all_matches = ∅ → mr.matches_ = ∅ → mr.rule.elseV ≠ "" →
      addFindingStep fs mr = .ok (dictSet fs mr.rule.id
        (get_meta mr.rule ⟨mr.rule.selection, .label mr.rule.elseV⟩))) ∧
    (mr.all_matches = ∅ → mr.matches_ = ∅ → mr.rule.elseV = "" →
      addFindingStep fs mr = .ok fs) := by
  refine ⟨?_, ?_, ?_, ?_⟩
  · intro h1
    simp [addFindingStep, h1]
  · intro h1 h2 hb
    have hne : mr.matches_.Nonempty := Finset.nonempty_iff_ne_empty.mpr h2
    exact addFindingStep_matchesEq fs mr h1 h2 (hb _ (setMinNat_mem _ hne))
  · intro h1 h2 h3
    simp [addFindingStep, h1, h2, h3]
  · intro h1 h2 h3
    simp [addFindingStep, h1, h2, h3]

/-- Witness for C1: a concrete record with `all_matches` non-empty takes
the first branch. -/
theorem C1_aggregator_priority_witness :
    addFindingStep [] ⟨ruleSdk, ∅, {"a"}⟩ = .ok (dictSet []
      (MatchRecord.mk ruleSdk ∅ {"a"}).rule.id
      (get_meta (MatchRecord.mk ruleSdk ∅ {"a"}).rule
        ⟨(MatchRecord.mk ruleSdk ∅ {"a"}).rule.selection,
          .tokens (MatchRecord.mk ruleSdk ∅ {"a"}).all_matches⟩)) :=
  (C1_aggregator_priority [] ⟨ruleSdk, ∅, {"a"}⟩).1 (by decide)

/-- A file fully determines the behavior of its loop iteration: it is
either skipped (state unchanged), raises a fixed inner exception, or folds
a fixed matcher result into the state, uniformly in the incoming state. -/
theorem stepF_shape (env : Externals) (cm : CMConf) (rule : Rule) (f : PyFile) :
    (∀ s, stepF env cm rule s f = .ok s) ∨
    (∃ e, ∀ s, stepF env cm rule s f = .error e) ∨
    (∃ m, ∀ s, stepF env cm rule s f = .ok (recordMatch s m)) := by
  by_cases h1 : cm.exts ≠ [] ∧ strLower f.suffix ∉ cm.exts
  · exact Or.inl fun s => by simp [stepF, h1]
  · cases hio : f.ioError with
    | some msg =>
      exact Or.inr (Or.inl ⟨.os msg, fun s => by simp [stepF, h1, hio]⟩)
    | none =>
      by_cases h2 : 5000000 < f.size
      · exact Or.inl fun s => by simp [stepF, h1, hio, h2]
      · cases hm : env.find_choices (normData env (strLower f.suffix) f.content) rule with
        | error msg =>
          exact Or.inr (Or.inl ⟨.matcher msg, fun s => by
            simp [stepF, matchPhase, h1, hio, h2, hm]⟩)
        | ok m =>
          exact Or.inr (Or.inr ⟨m, fun s => by
            simp [stepF, matchPhase, h1, hio, h2, hm]⟩)

/-- Folding two matcher results into the accumulator sets commutes. -/
theorem recordMatch_comm (s : ScanSt) (m1 m2 : MatchRes) :
    recordMatch (recordMatch s m1) m2 = recordMatch (recordMatch s m2) m1 := by
  cases m1 with
  | null => rfl
  | tokSet ts1 =>
    cases m2 with
    | null => rfl
    | tokSet ts2 =>
      by_cases e1 : ts1 = ∅ <;> by_cases e2 : ts2 = ∅ <;>
        simp [recordMatch, e1, e2, Finset.union_assoc, Finset.union_comm ts1 ts2]
    | idxList l2 =>
      cases l2 with
      | nil => rfl
      | cons j u => by_cases e1 : ts1 = ∅ <;> simp [recordMatch, e1]
  | idxList l1 =>
    cases l1 with
    | nil => rfl
    | cons i t =>
      cases m2 with
      | null => rfl
      | tokSet ts2 => by_cases e2 : ts2 = ∅ <;> simp [recordMatch, e2]
      | idxList l2 =>
        cases l2 with
        | nil => rfl
        | cons j u => simp [recordMatch, Finset.Insert.comm]

/-- Up to the catch-all of the worker, scanning a rule over any permutation
of the file list produces the same outcome. -/
theorem runFiles_perm (env : Externals) (cm : CMConf) (rule : Rule)
    {p1 p2 : List PyFile} (h : p1.Perm p2) :
    ∀ s, wrapErr (runFiles env cm rule p1 s) = wrapErr (runFiles env cm rule p2 s) := by
  induction h with
  | nil => intro s; rfl
  | cons x _ ih =>
    intro s
    simp only [runFiles]
    cases hx : stepF env cm rule s x with
    | error e => rfl
    | ok s1 => exact ih s1
  | swap x y l =>
    intro s
    simp only [runFiles]
    rcases stepF_shape env cm rule x with hx | ⟨ex, hx⟩ | ⟨mx, hx⟩ <;>
      rcases stepF_shape env cm rule y with hy | ⟨ey, hy⟩ | ⟨my, hy⟩ <;>
      simp [hx, hy, wrapErr, recordMatch_comm]
  | trans _ _ ih1 ih2 => intro s; exact (ih1 s).trans (ih2 s)

/-- The whole per-rule worker is insensitive to file order. -/
theorem choice_matcher_perm (env : Externals) (cm : CMConf) (rule : Rule)
    {p1 p2 : List PyFile} (h : p1.Perm p2) :
    choice_matcher env cm p1 rule = choice_matcher env cm p2 rule := by
  have hw := runFiles_perm env cm rule h ⟨∅, ∅, 0⟩
  unfold choice_matcher
  cases h1 : runFiles env cm rule p1 ⟨∅, ∅, 0⟩ with
  | error e1 =>
    cases h2 : runFiles env cm rule p2 ⟨∅, ∅, 0⟩ with
    | error e2 => rfl
    | ok s2 => rw [h1, h2] at hw; simp [wrapErr] at hw
  | ok s1 =>
    cases h2 : runFiles env cm rule p2 ⟨∅, ∅, 0⟩ with
    | error e2 => rw [h1, h2] at hw; simp [wrapErr] at hw
    | ok s2 =>
      rw [h1, h2] at hw
      simp only [wrapErr, Except.ok.injEq] at hw
      rw [hw]

/-- C2: for an or/and-style record with a non-empty match set whose indices
all index into the choice list, the resolved label is the one at the
numerically smallest matched index, and the per-rule worker output (hence
the resolution) is invariant under permutation of the file scan order. -/
theorem C2_smallest_index_resolution :
    (∀ (rule : Rule) (fs : Findings) (M : Finset Nat), M ≠ ∅ →
      (∀ i ∈ M, i < rule.choice.length) →
      setMinNat M ∈ M ∧ (∀ i ∈ M, setMinNat M ≤ i) ∧
      addFindingStep fs ⟨rule, M, ∅⟩ = .ok (dictSet fs rule.id
        (get_meta rule ⟨rule.selection,
          .label (rule.choice.getD (setMinNat M) ([], "")).2⟩))) ∧
    (∀ (env : Externals) (cm : CMConf) (rule : Rule) (p1 p2 : List PyFile),
      p1.Perm p2 → choice_matcher env cm p1 rule = choice_matcher env cm p2 rule) := by
  constructor
  · intro rule fs M hM hb
    have hne : M.Nonempty := Finset.nonempty_iff_ne_empty.mpr hM
    refine ⟨setMinNat_mem _ hne, fun i hi => setMinNat_le _ hne hi, ?_⟩
    exact addFindingStep_matchesEq fs ⟨rule, M, ∅⟩ rfl hM (hb _ (setMinNat_mem _ hne))
  · intro env cm rule p1 p2 h
    exact choice_matcher_perm env cm rule h

/-- Witness for C2: matched indices {3, 0, 5} on a six-choice rule resolve
to the label at index 0, and swapping two scanned files does not change the
worker output. -/
theorem C2_smallest_index_resolution_witness :
    (setMinNat {3, 0, 5} ∈ ({3, 0, 5} : Finset Nat) ∧
      (∀ i ∈ ({3, 0, 5} : Finset Nat), setMinNat {3, 0, 5} ≤ i) ∧
      addFindingStep [] ⟨ruleSix, {3, 0, 5}, ∅⟩ = .ok (dictSet [] ruleSix.id
        (get_meta ruleSix ⟨ruleSix.selection,
          .label (ruleSix.choice.getD (setMinNat {3, 0, 5}) ([], "")).2⟩))) ∧
    choice_matcher envSdk cm0 [fB, fA] ruleSdk =
      choice_matcher envSdk cm0 [fA, fB] ruleSdk :=
  ⟨C2_smallest_index_resolution.1 ruleSix [] {3, 0, 5} (by decide) (by decide),
    C2_smallest_index_resolution.2 envSdk cm0 ruleSdk [fB, fA] [fA, fB]
      (List.Perm.swap fA fB [])⟩

end Libsast
